import Mathlib

/-!
Verification development for the JLPT Anki deck generator.

The Python sources (`scripts/jmdict_utils.py`, `scripts/create_kanji_decks.py`,
`scripts/create_vocab_decks.py`) are shallowly embedded below:

* JSON records become Lean structures; an absent JSON field becomes `Option`
  (or the empty string for `text` fields, matching Python truthiness, which
  treats `None` and `""` identically everywhere these scripts test a text).
* Python `dict`s keyed by single-character strings (the kanji → level / tier
  lookup tables consulted by the word classifiers) become association lists
  keyed by `Char`; the classifiers only ever look up single characters.
* Machine integers are `Int`/`Nat`; the only real-number operations in the
  source are `(i / total) * 100 < 25` (and `< 50`, `< 75`) in
  `calculate_frequency_tiers` and `math.ceil(sum / len)` in
  `get_word_frequency_tier`.  Both are exact at these magnitudes:
  `(i/total)*100` is computed on IEEE doubles whose nearest-rational error is
  far below the distance `25/total` from any cutoff except when the rational
  value lands exactly on the cutoff, in which case `i/total ∈ {1/4,1/2,3/4}`
  is a dyadic rational represented exactly; so the float comparison agrees
  with the rational comparison `100*i < 25*total`, which is what we embed.
  Likewise `math.ceil(sum/len)` with tier values `1..4` is the exact rational
  ceiling, embedded as `(sum + len - 1) / len` on `Nat`.
-/

/-- A kanji spelling of a JMdict word entry: the `"text"` and `"common"`
fields read by the scripts.  A missing or null text is modelled as `""`
(Python code only ever tests these texts for truthiness). -/
structure KanjiForm where
  text : String
  common : Bool
deriving DecidableEq

/-- A kana spelling of a JMdict word entry. -/
structure KanaForm where
  text : String
  common : Bool
deriving DecidableEq

/-- One gloss of a sense: the `"lang"` and `"text"` fields. -/
structure Gloss where
  lang : String
  text : String
deriving DecidableEq

/-- One sentence of a Tatoeba example: the `"lang"` and `"text"` fields. -/
structure ExSentence where
  lang : String
  text : String
deriving DecidableEq

/-- One Tatoeba example attached to a sense: its `"sentences"` list. -/
structure TatoebaExample where
  sentences : List ExSentence
deriving DecidableEq

/-- One sense of a JMdict word entry: the fields read by `format_sense`
and `process_word`. -/
structure Sense where
  partOfSpeech : List String
  gloss : List Gloss
  info : List String
  misc : List String
  examples : List TatoebaExample
deriving DecidableEq

/-- A JMdict word entry: the `"kanji"`, `"kana"` and `"sense"` lists. -/
structure Word where
  kanji : List KanjiForm
  kana : List KanaForm
  sense : List Sense
deriving DecidableEq

/-- Character-keyed lookup in an association list; models `char in d` /
`d[char]` on a Python dict keyed by single-character strings. -/
def lookupCharMap {β : Type} (m : List (Char × β)) (c : Char) : Option β :=
  (m.find? (fun p => p.1 = c)).map (fun p => p.2)

/-- The guard `"一" <= char <= "鿿"` of `jmdict_utils.py` lines
181 and 220: membership in the CJK Unified Ideographs block. -/
def isCJK (c : Char) : Bool :=
  decide (0x4e00 ≤ c.toNat) && decide (c.toNat ≤ 0x9fff)

/-- The level-collection loop of `get_word_jlpt_level`
(`jmdict_utils.py` lines 213–221): every character of every kanji form
that is a CJK ideograph and is present in the lookup contributes its
mapped level, in scan order. -/
def levelsFound (w : Word) (m : List (Char × String)) : List String :=
  w.kanji.flatMap (fun k =>
    k.text.toList.filterMap (fun c =>
      if isCJK c then lookupCharMap m c else none))

/-- The dict `level_priority = {"N1": 5, "N2": 4, "N3": 3, "N4": 2, "N5": 1}`
of `jmdict_utils.py` line 229, with `.get(level, 0)` semantics. -/
def level_priority (l : String) : Nat :=
  if l = "N1" then 5
  else if l = "N2" then 4
  else if l = "N3" then 3
  else if l = "N4" then 2
  else if l = "N5" then 1
  else 0

/-- The maximum-severity loop of `get_word_jlpt_level`
(`jmdict_utils.py` lines 231–236): running state `(max_priority, max_level)`,
updated whenever a strictly higher priority is seen. -/
def maxLevelLoop : List String → Nat → String → String
  | [], _, best => best
  | lv :: rest, bestP, best =>
    if bestP < level_priority lv then maxLevelLoop rest (level_priority lv) lv
    else maxLevelLoop rest bestP best

/-- `get_word_jlpt_level` (`jmdict_utils.py` lines 202–238). -/
def get_word_jlpt_level (w : Word) (m : List (Char × String)) : String :=
  if w.kanji.isEmpty then "kana_only"
  else
    match levelsFound w m with
    | [] => "non_jlpt"
    | l :: ls => maxLevelLoop (l :: ls) 0 l

/-- The tier-collection loop of `get_word_frequency_tier`
(`jmdict_utils.py` lines 174–182), same shape as `levelsFound`. -/
def tiersFound (w : Word) (m : List (Char × Nat)) : List Nat :=
  w.kanji.flatMap (fun k =>
    k.text.toList.filterMap (fun c =>
      if isCJK c then lookupCharMap m c else none))

/-- Python `max` over a non-empty list, head split off. -/
def listMax (t : Nat) (ts : List Nat) : Nat :=
  ts.foldl Nat.max t

/-- `math.ceil(s / n)` for naturals with `n > 0` (exact: see header note). -/
def ceilDiv (s n : Nat) : Nat :=
  (s + n - 1) / n

/-- `get_word_frequency_tier` (`jmdict_utils.py` lines 140–199).  The
`strategy` default `"conservative"` is passed explicitly by callers here. -/
def get_word_frequency_tier (w : Word) (m : List (Char × Nat))
    (strategy : String) : Option Nat :=
  if w.kanji.isEmpty then none
  else
    match tiersFound w m with
    | [] => none
    | t :: ts =>
      if strategy = "conservative" then some (listMax t ts)
      else if strategy = "average" then some (ceilDiv (t + ts.sum) (ts.length + 1))
      else if strategy = "first" then some t
      else some (listMax t ts)

/-- `is_common_word` (`jmdict_utils.py` lines 241–245). -/
def is_common_word (w : Word) : Bool :=
  w.kanji.any (fun k => k.common) || w.kana.any (fun ka => ka.common)

/-- The kana half of `get_primary_form` (`jmdict_utils.py` lines 262–271),
reached only when the kanji branches fell through. -/
def kanaPrimaryForm (w : Word) : Option String × String :=
  match w.kana.find? (fun ka => ka.common) with
  | some ka => (some ka.text, "kana")
  | none =>
    match w.kana with
    | ka :: _ => if ka.text ≠ "" then (some ka.text, "kana") else (none, "")
    | [] => (none, "")

/-- `get_primary_form` (`jmdict_utils.py` lines 248–271).  The first
common-flagged kanji form returns unconditionally (even an empty text, as in
the source); the first-kanji fallback falls through to kana when its text is
falsy.  `none` models Python `None`; an empty text from a common form is
`some ""` — callers only ever test truthiness, under which the two agree. -/
def get_primary_form (w : Word) : Option String × String :=
  match w.kanji.find? (fun k => k.common) with
  | some k => (some k.text, "kanji")
  | none =>
    match w.kanji with
    | k :: _ => if k.text ≠ "" then (some k.text, "kanji") else kanaPrimaryForm w
    | [] => kanaPrimaryForm w

/-- `tags.get(pos, pos)`: tag-dictionary lookup defaulting to the code
itself (`jmdict_utils.py` lines 291 and 316). -/
def lookupTag (tags : List (String × String)) (k : String) : String :=
  match tags.find? (fun p => p.1 = k) with
  | some p => p.2
  | none => k

/-- `get_readings` (`jmdict_utils.py` lines 274–281): all truthy kana
texts, in order. -/
def get_readings (w : Word) : List String :=
  w.kana.filterMap (fun ka => if ka.text ≠ "" then some ka.text else none)

/-- `format_sense` (`jmdict_utils.py` lines 284–322). -/
def format_sense (s : Sense) (tags : List (String × String)) : String :=
  let pos_tags := s.partOfSpeech.filterMap (fun p =>
    let t := lookupTag tags p
    if t ≠ "" then some t else none)
  let glosses := s.gloss.filterMap (fun g =>
    if g.lang = "eng" ∧ g.text ≠ "" then some g.text else none)
  let misc_labels := s.misc.filterMap (fun m =>
    let t := lookupTag tags m
    if t ≠ "" then some t else none)
  let parts : List String :=
    (if pos_tags ≠ [] then ["(" ++ String.intercalate "; " pos_tags ++ ")"] else [])
    ++ (if glosses ≠ [] then [String.intercalate "; " glosses] else [])
    ++ (if s.info ≠ [] then ["[" ++ String.intercalate "; " s.info ++ "]"] else [])
    ++ (if misc_labels ≠ [] then
          ["<i>(" ++ String.intercalate "; " misc_labels ++ ")</i>"] else [])
  String.intercalate " " parts

/-- The per-example body of `format_examples` (`jmdict_utils.py` lines
336–345): the last Japanese and last English sentence win, and the pair is
emitted only when both are non-empty. -/
def formatOneExample (idx : Nat) (ex : TatoebaExample) : Option String :=
  let jpEn := ex.sentences.foldl (fun (acc : String × String) s =>
    if s.lang = "jpn" then (s.text, acc.2)
    else if s.lang = "eng" then (acc.1, s.text)
    else acc) ("", "")
  if jpEn.1 ≠ "" ∧ jpEn.2 ≠ "" then
    some (toString idx ++ ". " ++ jpEn.1 ++ "<br>→ " ++ jpEn.2)
  else none

/-- `format_examples` (`jmdict_utils.py` lines 325–347). -/
def format_examples (exs : List TatoebaExample) (max_examples : Nat) : String :=
  if exs = [] then ""
  else
    String.intercalate "<br>"
      ((exs.take max_examples).enum.filterMap (fun p =>
        formatOneExample (p.1 + 1) p.2))

/-- The record built by `process_word` (`jmdict_utils.py` lines 391–402);
`examples := none` models the `"examples"` key being absent. -/
structure ProcessedWord where
  word : String
  readings : String
  senses : String
  is_common : Bool
  form_type : String
  examples : Option String
deriving DecidableEq

/-- `process_word` (`jmdict_utils.py` lines 350–402). -/
def process_word (w : Word) (tags : List (String × String))
    (include_examples : Bool) : Option ProcessedWord :=
  match get_primary_form w with
  | (none, _) => none
  | (some form, form_type) =>
    if form = "" then none
    else
      let readings := get_readings w
      let senses := w.sense.enum.filterMap (fun p =>
        let t := format_sense p.2 tags
        if t ≠ "" then some (toString (p.1 + 1) ++ ". " ++ t) else none)
      let all_examples :=
        if include_examples then
          w.sense.filterMap (fun s =>
            if s.examples ≠ [] then
              let f := format_examples s.examples 2
              if f ≠ "" then some f else none
            else none)
        else []
      if senses = [] then none
      else some
        { word := form
          readings := String.intercalate ", " readings
          senses := String.intercalate "<br>" senses
          is_common := is_common_word w
          form_type := form_type
          examples :=
            if include_examples ∧ all_examples ≠ [] then
              some (String.intercalate "<br><br>" (all_examples.take 2))
            else none }

/-- The `misc` object of a Kanjidic2 character: the fields read by the
scripts.  JSON integers are `Int`. -/
structure KMisc where
  jlptLevel : Option Int
  grade : Option Int
  strokeCounts : List Int
  frequency : Option Int
deriving DecidableEq

/-- A Kanjidic2 character record.  A missing or null literal is modelled as
`""` (the source only tests it for truthiness).  Display-only fields
(readings, meanings, radicals, dictionary references) are omitted: no claim
concerns them and the classification logic never reads them. -/
structure CharRec where
  literal : String
  misc : KMisc
deriving DecidableEq

/-- Python `if grade and grade <= 6` (`jmdict_utils.py` line 62 and
`create_kanji_decks.py` line 312): `None` and `0` are both falsy. -/
def gradeTruthyLE6 : Option Int → Bool
  | some g => decide (g ≠ 0) && decide (g ≤ 6)
  | none => false

/-- The per-character body of `build_kanji_jlpt_map` (`jmdict_utils.py`
lines 48–67): the label stored for the character's literal, or `none` when
the loop assigns nothing (missing literal, missing level, or a level outside
`{1,2,3,4}`).  The source tests `jlpt_level == 2` first and otherwise falls
to the `OLD_TO_NEW_JLPT` table `{4: "N5", 3: "N4", 1: "N1"}`. -/
def charJlptLabel (c : CharRec) : Option String :=
  if c.literal = "" then none
  else
    match c.misc.jlptLevel with
    | none => none
    | some l =>
      if l = 2 then (if gradeTruthyLE6 c.misc.grade then some "N3" else some "N2")
      else if l = 4 then some "N5"
      else if l = 3 then some "N4"
      else if l = 1 then some "N1"
      else none

/-- Python dict assignment `d[k] = v`: overwrite in place, else append. -/
def dictInsert (m : List (String × String)) (k v : String) :
    List (String × String) :=
  if m.any (fun p => p.1 = k) then
    m.map (fun p => if p.1 = k then (k, v) else p)
  else m ++ [(k, v)]

/-- `build_kanji_jlpt_map` (`jmdict_utils.py` lines 29–69). -/
def build_kanji_jlpt_map (cs : List CharRec) : List (String × String) :=
  cs.foldl (fun acc c =>
    match charJlptLabel c with
    | some lbl => dictInsert acc c.literal lbl
    | none => acc) []

/-- The record built by `process_character` (`create_kanji_decks.py` lines
90–149), restricted to the fields the classification/grouping logic reads
(`kanji`, `jlpt_level`, `grade`) plus the other `misc`-derived stats;
display-only fields are omitted as in `CharRec`. -/
structure ProcessedChar where
  kanji : String
  jlpt_level : Int
  grade : Option Int
  frequency : Option Int
  stroke_count : Option Int
deriving DecidableEq

/-- `process_character` (`create_kanji_decks.py` lines 90–149): skip on a
missing literal or missing JLPT level. -/
def process_character (c : CharRec) : Option ProcessedChar :=
  if c.literal = "" then none
  else
    match c.misc.jlptLevel with
    | none => none
    | some l => some
      { kanji := c.literal
        jlpt_level := l
        grade := c.misc.grade
        frequency := c.misc.frequency
        stroke_count := c.misc.strokeCounts.head? }

/-- The grouping branch of `create_kanji_decks.main` (lines 296–321): the
name of the `jlpt_groups` bucket the processed record is appended to, or
`none` when the record is skipped. -/
def kanjiBucket (c : CharRec) : Option String :=
  match process_character c with
  | none => none
  | some r =>
    if r.jlpt_level = 4 then some "N5"
    else if r.jlpt_level = 3 then some "N4"
    else if r.jlpt_level = 2 then
      (if gradeTruthyLE6 r.grade then some "N3" else some "N2")
    else if r.jlpt_level = 1 then some "N1"
    else none

/-- The sort key of `calculate_frequency_tiers` line 117:
`sorted(kanji_freq_map.items(), key=lambda x: x[1])` — compare entries by
rank.  Python's sort is stable and so is `List.insertionSort`. -/
def rankLE {α : Type} (p q : α × Nat) : Prop :=
  p.2 ≤ q.2

instance {α : Type} : DecidableRel (@rankLE α) :=
  fun p q => inferInstanceAs (Decidable (p.2 ≤ q.2))

instance {α : Type} : IsTotal (α × Nat) rankLE :=
  ⟨fun p q => Nat.le_total p.2 q.2⟩

instance {α : Type} : IsTrans (α × Nat) rankLE :=
  ⟨fun _ _ _ h h' => Nat.le_trans h h'⟩

/-- The percentile cutoffs of `calculate_frequency_tiers` lines 127–135:
`(i / total) * 100 < 25` (and 50, 75) as the exact rational comparison
`100 * i < 25 * total` (see header note on float exactness). -/
def tierOfIndex (i total : Nat) : Nat :=
  if 100 * i < 25 * total then 1
  else if 100 * i < 50 * total then 2
  else if 100 * i < 75 * total then 3
  else 4

/-- The `for i, (kanji, _) in enumerate(sorted_kanji)` loop of
`calculate_frequency_tiers` lines 124–135, with the running index made
explicit. -/
def assignTiers {α : Type} (total : Nat) : Nat → List (α × Nat) → List (α × Nat)
  | _, [] => []
  | i, (k, _) :: rest => (k, tierOfIndex i total) :: assignTiers total (i + 1) rest

/-- `calculate_frequency_tiers` (`jmdict_utils.py` lines 93–137).  The
source's two emptiness checks (`if not kanji_freq_map` and `if total == 0`)
collapse to one. -/
def calculate_frequency_tiers {α : Type} (m : List (α × Nat)) : List (α × Nat) :=
  if m.isEmpty then []
  else
    let sorted := List.insertionSort rankLE m
    assignTiers sorted.length 0 sorted

/-- The empty bucket table: `jlpt_groups` before any append (buckets in the
source are pre-created empty, so reading any name yields `[]`). -/
def emptyBuckets {ρ : Type} : String → List ρ :=
  fun _ => []

/-- One iteration of the classify-and-append loops
(`create_vocab_decks.py` lines 198–210, `create_kanji_decks.py` lines
296–324): append the record to the bucket named by its classification. -/
def bucketAppend {ρ : Type} (g : String → List ρ) (p : ρ × String) :
    String → List ρ :=
  fun b => if b = p.2 then g b ++ [p.1] else g b

/-- The full batch run of the bucketer over a stream of
(record, classification) pairs. -/
def runBuckets {ρ : Type} (pairs : List (ρ × String)) : String → List ρ :=
  pairs.foldl bucketAppend emptyBuckets

/-- The (record, classification) stream produced by the word loop of
`create_vocab_decks.main` (lines 198–210): skip words `process_word`
rejects, skip non-common words under `--common-only`, classify the rest. -/
def vocabPairs (words : List Word) (tags : List (String × String))
    (m : List (Char × String)) (commonOnly includeExamples : Bool) :
    List (ProcessedWord × String) :=
  words.filterMap (fun w =>
    match process_word w tags includeExamples with
    | none => none
    | some r =>
      if commonOnly && !r.is_common then none
      else some (r, get_word_jlpt_level w m))

/-- The spec's worked level lookup: 曜 is N1, 日 and 本 are N5. -/
def exLevelMap : List (Char × String) :=
  [('曜', "N1"), ('日', "N5"), ('本', "N5")]

/-- The spec's worked tier lookup: 曜 in tier 4, 日 in tier 1. -/
def exTierMap : List (Char × Nat) :=
  [('曜', 4), ('日', 1)]

/-- One English sense used to build processable word records. -/
def exSenseDay : Sense :=
  ⟨[], [⟨"eng", "day"⟩], [], [], []⟩

/-- The spec's example word 曜日. -/
def exWordYoubi : Word :=
  ⟨[⟨"曜日", false⟩], [⟨"ようび", true⟩], [exSenseDay]⟩

/-- The spec's example word 日本. -/
def exWordNihon : Word :=
  ⟨[⟨"日本", true⟩], [⟨"にほん", true⟩], [exSenseDay]⟩

/-- A kana-only word record (no kanji forms at all). -/
def exWordKana : Word :=
  ⟨[], [⟨"です", true⟩], [exSenseDay]⟩

/-- A word whose only kanji character (水) is absent from both example
lookups. -/
def exWordNoMatch : Word :=
  ⟨[⟨"水", false⟩], [⟨"みず", true⟩], [exSenseDay]⟩

/-- A word record with no form at all. -/
def exWordNoForms : Word :=
  ⟨[], [], [exSenseDay]⟩

/-- A legacy-level-2 character record with grade 3. -/
def exCharGrade3 : CharRec :=
  ⟨"口", ⟨some 2, some 3, [3], some 100⟩⟩

/-- A legacy-level-2 character record whose grade is the integer 0,
which Python treats as falsy. -/
def exCharGrade0 : CharRec :=
  ⟨"口", ⟨some 2, some 0, [], none⟩⟩

theorem listMax_cons (t a : Nat) (ts : List Nat) :
    listMax t (a :: ts) = listMax (Nat.max t a) ts := rfl

theorem listMax_mem (t : Nat) (ts : List Nat) : listMax t ts ∈ t :: ts := by
  induction ts generalizing t with
  | nil => exact List.mem_cons_self _ _
  | cons a ts ih =>
    rw [listMax_cons]
    rcases List.mem_cons.mp (ih (Nat.max t a)) with h1 | h1
    · have hchoice : Nat.max t a = t ∨ Nat.max t a = a := by
        rcases Nat.le_total t a with hm | hm
        · right
          exact Nat.max_eq_right hm
        · left
          exact Nat.max_eq_left hm
      rcases hchoice with hma | hma
      · rw [h1, hma]
        exact List.mem_cons_self _ _
      · rw [h1, hma]
        exact List.mem_cons_of_mem _ (List.mem_cons_self _ _)
    · exact List.mem_cons_of_mem _ (List.mem_cons_of_mem _ h1)

theorem le_listMax (t : Nat) (ts : List Nat) : ∀ x ∈ t :: ts, x ≤ listMax t ts := by
  induction ts generalizing t with
  | nil =>
    intro x hx
    rcases List.mem_cons.mp hx with rfl | hx
    · exact Nat.le_refl _
    · cases hx
  | cons a ts ih =>
    intro x hx
    rw [listMax_cons]
    have hhead : Nat.max t a ≤ listMax (Nat.max t a) ts :=
      ih (Nat.max t a) (Nat.max t a) (List.mem_cons_self _ _)
    rcases List.mem_cons.mp hx with rfl | hx
    · exact Nat.le_trans (Nat.le_max_left x a) hhead
    · rcases List.mem_cons.mp hx with rfl | hx
      · exact Nat.le_trans (Nat.le_max_right t x) hhead
      · exact ih (Nat.max t a) x (List.mem_cons_of_mem _ hx)

theorem ceilDiv_spec (s n : Nat) (hn : 0 < n) :
    s ≤ n * ceilDiv s n ∧ n * ceilDiv s n < s + n := by
  rcases Nat.eq_zero_or_pos s with hs | hs
  · subst hs
    have h0 : ceilDiv 0 n = 0 := by
      unfold ceilDiv
      exact Nat.div_eq_of_lt (by omega)
    rw [h0]
    omega
  · have h2 : ceilDiv s n = (s - 1) / n + 1 := by
      unfold ceilDiv
      have h1 : s + n - 1 = s - 1 + n := by omega
      rw [h1, Nat.add_div_right _ hn]
    constructor
    · have h3 : s - 1 < ((s - 1) / n + 1) * n :=
        (Nat.div_lt_iff_lt_mul hn).mp (Nat.lt_succ_self _)
      have h4 : s ≤ ((s - 1) / n + 1) * n := Nat.le_of_pred_lt h3
      rw [h2, Nat.mul_comm]
      exact h4
    · have h5 : ceilDiv s n * n ≤ s + n - 1 := by
        unfold ceilDiv
        exact Nat.div_mul_le_self _ _
      have h6 : s + n - 1 < s + n := by omega
      rw [Nat.mul_comm]
      exact Nat.lt_of_le_of_lt h5 h6

theorem maxLevelLoop_spec (xs : List String) (p : Nat) (b : String)
    (hpb : p = level_priority b) :
    maxLevelLoop xs p b ∈ b :: xs
    ∧ level_priority b ≤ level_priority (maxLevelLoop xs p b)
    ∧ ∀ x ∈ xs, level_priority x ≤ level_priority (maxLevelLoop xs p b) := by
  induction xs generalizing p b with
  | nil =>
    exact ⟨List.mem_cons_self _ _, Nat.le_refl _, fun x hx => absurd hx (List.not_mem_nil x)⟩
  | cons a xs ih =>
    have hstep : maxLevelLoop (a :: xs) p b =
        if p < level_priority a then maxLevelLoop xs (level_priority a) a
        else maxLevelLoop xs p b := rfl
    by_cases hc : p < level_priority a
    · rw [hstep, if_pos hc]
      obtain ⟨hm, hb, hall⟩ := ih (level_priority a) a rfl
      refine ⟨List.mem_cons_of_mem _ hm, ?_, ?_⟩
      · exact Nat.le_trans (Nat.le_of_lt (hpb ▸ hc)) hb
      · intro x hx
        rcases List.mem_cons.mp hx with rfl | hx
        · exact hb
        · exact hall x hx
    · rw [hstep, if_neg hc]
      obtain ⟨hm, hb, hall⟩ := ih p b hpb
      refine ⟨?_, hb, ?_⟩
      · rcases List.mem_cons.mp hm with heq | hm
        · rw [heq]
          exact List.mem_cons_self _ _
        · exact List.mem_cons_of_mem _ (List.mem_cons_of_mem _ hm)
      · intro x hx
        rcases List.mem_cons.mp hx with rfl | hx
        · have hxa : level_priority x ≤ p := Nat.le_of_not_lt hc
          exact Nat.le_trans hxa (hpb ▸ hb)
        · exact hall x hx

theorem maxLevelLoop_call (l : String) (ls : List String) :
    maxLevelLoop (l :: ls) 0 l ∈ l :: ls
    ∧ ∀ x ∈ l :: ls, level_priority x ≤ level_priority (maxLevelLoop (l :: ls) 0 l) := by
  have hstep : maxLevelLoop (l :: ls) 0 l =
      if 0 < level_priority l then maxLevelLoop ls (level_priority l) l
      else maxLevelLoop ls 0 l := rfl
  by_cases h0 : 0 < level_priority l
  · rw [hstep, if_pos h0]
    obtain ⟨hm, hb, hall⟩ := maxLevelLoop_spec ls (level_priority l) l rfl
    refine ⟨hm, ?_⟩
    intro x hx
    rcases List.mem_cons.mp hx with rfl | hx
    · exact hb
    · exact hall x hx
  · have h0' : (0 : Nat) = level_priority l := (Nat.eq_zero_of_not_pos h0).symm
    rw [hstep, if_neg h0]
    obtain ⟨hm, hb, hall⟩ := maxLevelLoop_spec ls 0 l h0'
    refine ⟨hm, ?_⟩
    intro x hx
    rcases List.mem_cons.mp hx with rfl | hx
    · exact hb
    · exact hall x hx

theorem filterMap_eq_nil_of_none {γ β : Type} (f : γ → Option β) (l : List γ)
    (h : ∀ c ∈ l, f c = none) : l.filterMap f = [] := by
  induction l with
  | nil => rfl
  | cons a l ih =>
    rw [List.filterMap_cons, h a (List.mem_cons_self a l)]
    exact ih (fun c hc => h c (List.mem_cons_of_mem a hc))

theorem scanFound_eq_nil {β : Type} (ks : List KanjiForm) (m : List (Char × β))
    (h : ∀ k ∈ ks, ∀ c ∈ k.text.toList, isCJK c = false ∨ lookupCharMap m c = none) :
    (ks.flatMap (fun k => k.text.toList.filterMap (fun c =>
      if isCJK c then lookupCharMap m c else none))) = [] := by
  induction ks with
  | nil => rfl
  | cons k ks ih =>
    rw [List.flatMap_cons]
    have h1 : (k.text.toList.filterMap (fun c =>
        if isCJK c then lookupCharMap m c else none)) = [] := by
      apply filterMap_eq_nil_of_none
      intro c hc
      rcases h k (List.mem_cons_self _ _) c hc with hcjk | hl
      · rw [hcjk]
        rfl
      · rw [hl]
        split <;> rfl
    rw [h1, List.nil_append]
    exact ih (fun k2 hk2 => h k2 (List.mem_cons_of_mem _ hk2))

theorem assignTiers_length {α : Type} (total i : Nat) (l : List (α × Nat)) :
    (assignTiers total i l).length = l.length := by
  induction l generalizing i with
  | nil => rfl
  | cons p l ih =>
    obtain ⟨k, r⟩ := p
    simp [assignTiers, ih]

theorem assignTiers_map_fst {α : Type} (total i : Nat) (l : List (α × Nat)) :
    (assignTiers total i l).map Prod.fst = l.map Prod.fst := by
  induction l generalizing i with
  | nil => rfl
  | cons p l ih =>
    obtain ⟨k, r⟩ := p
    simp [assignTiers, ih]

theorem mem_assignTiers {α : Type} (total i : Nat) (l : List (α × Nat)) (q : α × Nat) :
    q ∈ assignTiers total i l ↔
      ∃ j : Nat, ∃ hj : j < l.length,
        q = ((l.get ⟨j, hj⟩).1, tierOfIndex (i + j) total) := by
  induction l generalizing i with
  | nil =>
    constructor
    · intro hq
      cases hq
    · rintro ⟨j, hj, _⟩
      exact absurd hj (Nat.not_lt_zero j)
  | cons p l ih =>
    obtain ⟨k, r⟩ := p
    constructor
    · intro hq
      rcases List.mem_cons.mp hq with heq | hq
      · exact ⟨0, Nat.succ_pos _, by simpa using heq⟩
      · rcases (ih (i + 1)).mp hq with ⟨j, hj, heq⟩
        refine ⟨j + 1, Nat.succ_lt_succ hj, ?_⟩
        rw [heq]
        have harith : i + (j + 1) = (i + 1) + j := by omega
        rw [harith]
        rfl
    · rintro ⟨j, hj, heq⟩
      cases j with
      | zero =>
        rw [heq, Nat.add_zero]
        exact List.mem_cons_self _ _
      | succ j =>
        refine List.mem_cons_of_mem _ ((ih (i + 1)).mpr ⟨j, Nat.lt_of_succ_lt_succ hj, ?_⟩)
        rw [heq]
        have harith : i + (j + 1) = (i + 1) + j := by omega
        rw [harith]
        rfl

theorem tierOfIndex_bounds (i total : Nat) :
    1 ≤ tierOfIndex i total ∧ tierOfIndex i total ≤ 4 := by
  unfold tierOfIndex
  split_ifs <;> omega

theorem tierOfIndex_mono (total : Nat) {i j : Nat} (hij : i ≤ j) :
    tierOfIndex i total ≤ tierOfIndex j total := by
  unfold tierOfIndex
  split_ifs <;> omega

theorem get_eq_of_fst_nodup {α : Type} (l : List (α × Nat))
    (hnd : (l.map Prod.fst).Nodup) (k : α) (r : Nat) (hm : (k, r) ∈ l)
    (j : Nat) (hj : j < l.length) (hk : (l.get ⟨j, hj⟩).1 = k) :
    l.get ⟨j, hj⟩ = (k, r) := by
  induction l generalizing j with
  | nil => cases hm
  | cons p l ih =>
    rw [List.map_cons, List.nodup_cons] at hnd
    rcases List.mem_cons.mp hm with heq | hm2
    · cases j with
      | zero => exact heq.symm
      | succ j =>
        have hkin : k ∈ l.map Prod.fst := by
          rw [← hk]
          exact List.mem_map_of_mem Prod.fst (List.get_mem l _ _)
        rw [← heq] at hnd
        exact absurd hkin hnd.1
    · cases j with
      | zero =>
        have hkin : k ∈ l.map Prod.fst := List.mem_map_of_mem Prod.fst hm2
        exact absurd hkin (hk ▸ hnd.1)
      | succ j =>
        exact ih hnd.2 hm2 j (Nat.lt_of_succ_lt_succ hj) hk

theorem calculate_frequency_tiers_cons {α : Type} (p : α × Nat) (l : List (α × Nat)) :
    calculate_frequency_tiers (p :: l)
      = assignTiers (List.insertionSort rankLE (p :: l)).length 0
          (List.insertionSort rankLE (p :: l)) := rfl

theorem foldl_bucketAppend {ρ : Type} (pairs : List (ρ × String))
    (g : String → List ρ) (b : String) :
    (pairs.foldl bucketAppend g) b
      = g b ++ (pairs.filter (fun p => p.2 = b)).map Prod.fst := by
  induction pairs generalizing g with
  | nil => simp
  | cons p pairs ih =>
    rw [List.foldl_cons, ih]
    by_cases h : p.2 = b
    · rw [List.filter_cons_of_pos (by simpa using h), List.map_cons]
      show (if b = p.2 then g b ++ [p.1] else g b) ++ _ = _
      rw [if_pos h.symm]
      simp [List.append_assoc]
    · rw [List.filter_cons_of_neg (by simpa using h)]
      show (if b = p.2 then g b ++ [p.1] else g b) ++ _ = _
      rw [if_neg (fun hb => h hb.symm)]

theorem mem_runBuckets {ρ : Type} (pairs : List (ρ × String)) (b : String) (r : ρ) :
    r ∈ runBuckets pairs b ↔ (r, b) ∈ pairs := by
  rw [runBuckets, foldl_bucketAppend]
  show r ∈ [] ++ _ ↔ _
  rw [List.nil_append, List.mem_map]
  constructor
  · rintro ⟨p, hp, hfst⟩
    obtain ⟨hmem, hsnd⟩ := List.mem_filter.mp hp
    have hp2 : p.2 = b := by simpa using hsnd
    have hpair : p = (r, b) := by
      obtain ⟨p1, p2⟩ := p
      simp only at hfst hp2
      rw [hfst, hp2]
    rw [← hpair]
    exact hmem
  · intro hmem
    exact ⟨(r, b), List.mem_filter.mpr ⟨hmem, by simp⟩, rfl⟩

theorem fst_nodup_classification_unique {ρ : Type} (pairs : List (ρ × String))
    (hnd : (pairs.map Prod.fst).Nodup) (r : ρ) (b b' : String)
    (h1 : (r, b) ∈ pairs) (h2 : (r, b') ∈ pairs) : b = b' := by
  induction pairs with
  | nil => cases h1
  | cons p pairs ih =>
    rw [List.map_cons, List.nodup_cons] at hnd
    rcases List.mem_cons.mp h1 with he1 | h1t <;> rcases List.mem_cons.mp h2 with he2 | h2t
    · exact congrArg Prod.snd (he1.trans he2.symm)
    · exfalso
      apply hnd.1
      have hrm : r ∈ pairs.map Prod.fst := List.mem_map_of_mem Prod.fst h2t
      rw [← he1]
      exact hrm
    · exfalso
      apply hnd.1
      have hrm : r ∈ pairs.map Prod.fst := List.mem_map_of_mem Prod.fst h1t
      rw [← he2]
      exact hrm
    · exact ih hnd.2 h1t h2t

theorem mem_vocabPairs (words : List Word) (tags : List (String × String))
    (m : List (Char × String)) (co ie : Bool) (r : ProcessedWord) (b : String) :
    (r, b) ∈ vocabPairs words tags m co ie ↔
      ∃ w ∈ words, process_word w tags ie = some r
        ∧ (co && !r.is_common) = false ∧ get_word_jlpt_level w m = b := by
  unfold vocabPairs
  rw [List.mem_filterMap]
  constructor
  · rintro ⟨w, hw, hf⟩
    cases hpw : process_word w tags ie with
    | none =>
      rw [hpw] at hf
      simp at hf
    | some r2 =>
      simp only [hpw] at hf
      by_cases hskip : (co && !r2.is_common) = true
      · rw [if_pos hskip] at hf
        cases hf
      · rw [if_neg hskip] at hf
        injection hf with hf2
        have hr : r2 = r := congrArg Prod.fst hf2
        have hb : get_word_jlpt_level w m = b := congrArg Prod.snd hf2
        subst hr
        have hskipf : (co && !r2.is_common) = false := by
          revert hskip
          cases co && !r2.is_common <;> simp
        exact ⟨w, hw, hpw, hskipf, hb⟩
  · rintro ⟨w, hw, hpw, hskip, hb⟩
    refine ⟨w, hw, ?_⟩
    simp only [hpw]
    rw [if_neg (by rw [hskip]; exact Bool.false_ne_true), hb]

theorem kanjiEmpty_of_ne_nil {w : Word} (hk : w.kanji ≠ []) :
    w.kanji.isEmpty = false := by
  cases hkanji : w.kanji with
  | nil => exact absurd hkanji hk
  | cons a as => simp [hkanji]

theorem levelsFound_nil_of_kanji_nil {w : Word} (m : List (Char × String))
    (hk : w.kanji = []) : levelsFound w m = [] := by
  unfold levelsFound
  rw [hk]
  rfl

theorem tiersFound_nil_of_kanji_nil {w : Word} (m : List (Char × Nat))
    (hk : w.kanji = []) : tiersFound w m = [] := by
  unfold tiersFound
  rw [hk]
  rfl

theorem get_word_jlpt_level_cons (w : Word) (m : List (Char × String))
    (l : String) (ls : List String) (hk : w.kanji.isEmpty = false)
    (h : levelsFound w m = l :: ls) :
    get_word_jlpt_level w m = maxLevelLoop (l :: ls) 0 l := by
  unfold get_word_jlpt_level
  rw [if_neg (by simp [hk])]
  simp only [h]

theorem get_word_jlpt_level_nil (w : Word) (m : List (Char × String))
    (hk : w.kanji.isEmpty = false) (h : levelsFound w m = []) :
    get_word_jlpt_level w m = "non_jlpt" := by
  unfold get_word_jlpt_level
  rw [if_neg (by simp [hk])]
  simp only [h]

theorem get_word_frequency_tier_cons (w : Word) (m : List (Char × Nat))
    (strategy : String) (t : Nat) (ts : List Nat) (hk : w.kanji.isEmpty = false)
    (h : tiersFound w m = t :: ts) :
    get_word_frequency_tier w m strategy =
      if strategy = "conservative" then some (listMax t ts)
      else if strategy = "average" then some (ceilDiv (t + ts.sum) (ts.length + 1))
      else if strategy = "first" then some t
      else some (listMax t ts) := by
  unfold get_word_frequency_tier
  rw [if_neg (by simp [hk])]
  simp only [h]

theorem get_word_frequency_tier_nil (w : Word) (m : List (Char × Nat))
    (strategy : String) (hk : w.kanji.isEmpty = false)
    (h : tiersFound w m = []) :
    get_word_frequency_tier w m strategy = none := by
  unfold get_word_frequency_tier
  rw [if_neg (by simp [hk])]
  simp only [h]

/-- Claim C1: for a word record with at least one kanji-bearing form and at
least one constituent character found in the level lookup (so the matched
level list is non-empty), `get_word_jlpt_level` returns a matched level of
maximal severity, severity being `level_priority` with
N1 (5) > N2 (4) > N3 (3) > N4 (2) > N5 (1); in particular matched levels
{N1, N5} classify as N1 and {N5, N5} as N5. -/
theorem word_jlpt_level_most_severe (w : Word) (m : List (Char × String))
    (l : String) (ls : List String) (h : levelsFound w m = l :: ls) :
    get_word_jlpt_level w m ∈ levelsFound w m
    ∧ ∀ x ∈ levelsFound w m,
        level_priority x ≤ level_priority (get_word_jlpt_level w m) := by
  have hk : w.kanji.isEmpty = false := by
    apply kanjiEmpty_of_ne_nil
    intro hkanji
    rw [levelsFound_nil_of_kanji_nil m hkanji] at h
    cases h
  rw [h, get_word_jlpt_level_cons w m l ls hk h]
  exact maxLevelLoop_call l ls

/-- Witness for C1: the spec's example word 曜日 whose matched levels are
[N1, N5]; the theorem applies, placing the result among the matches at
maximal severity. -/
theorem word_jlpt_level_most_severe_witness :
    levelsFound exWordYoubi exLevelMap = ["N1", "N5"]
    ∧ get_word_jlpt_level exWordYoubi exLevelMap ∈ levelsFound exWordYoubi exLevelMap
    ∧ ∀ x ∈ levelsFound exWordYoubi exLevelMap,
        level_priority x ≤ level_priority (get_word_jlpt_level exWordYoubi exLevelMap) :=
  ⟨by decide,
    (word_jlpt_level_most_severe exWordYoubi exLevelMap "N1" ["N5"] (by decide)).1,
    (word_jlpt_level_most_severe exWordYoubi exLevelMap "N1" ["N5"] (by decide)).2⟩

/-- Claim C5: with matched tiers `t :: ts` (scan order), strategy
"conservative" returns their maximum (a matched tier at least as large as
every match), "average" returns the ceiling of their arithmetic mean
(characterized by `sum ≤ n·r < sum + n`), and "first" returns the tier of
the first matching character; on matched tiers [4, 1] these give 4,
ceil(5/2) = 3 and 4. -/
theorem frequency_tier_strategies (w : Word) (m : List (Char × Nat))
    (t : Nat) (ts : List Nat) (h : tiersFound w m = t :: ts) :
    (get_word_frequency_tier w m "conservative" = some (listMax t ts)
      ∧ listMax t ts ∈ t :: ts ∧ ∀ x ∈ t :: ts, x ≤ listMax t ts)
    ∧ (get_word_frequency_tier w m "average"
        = some (ceilDiv (t + ts.sum) (ts.length + 1))
      ∧ t + ts.sum ≤ (ts.length + 1) * ceilDiv (t + ts.sum) (ts.length + 1)
      ∧ (ts.length + 1) * ceilDiv (t + ts.sum) (ts.length + 1)
          < (t + ts.sum) + (ts.length + 1))
    ∧ get_word_frequency_tier w m "first" = some t := by
  have hk : w.kanji.isEmpty = false := by
    apply kanjiEmpty_of_ne_nil
    intro hkanji
    rw [tiersFound_nil_of_kanji_nil m hkanji] at h
    cases h
  refine ⟨⟨?_, listMax_mem t ts, le_listMax t ts⟩, ⟨?_, ?_, ?_⟩, ?_⟩
  · rw [get_word_frequency_tier_cons w m "conservative" t ts hk h, if_pos rfl]
  · rw [get_word_frequency_tier_cons w m "average" t ts hk h,
      if_neg (by decide), if_pos rfl]
  · exact (ceilDiv_spec (t + ts.sum) (ts.length + 1) (Nat.succ_pos _)).1
  · exact (ceilDiv_spec (t + ts.sum) (ts.length + 1) (Nat.succ_pos _)).2
  · rw [get_word_frequency_tier_cons w m "first" t ts hk h,
      if_neg (by decide), if_neg (by decide), if_pos rfl]

/-- Witness for C5: the word 曜日 against the tier lookup 曜 ↦ 4, 日 ↦ 1 has
matched tiers [4, 1]; the theorem applies, giving the max, ceiling-average
and first-tier results. -/
theorem frequency_tier_strategies_witness :
    tiersFound exWordYoubi exTierMap = [4, 1]
    ∧ get_word_frequency_tier exWordYoubi exTierMap "conservative" = some (listMax 4 [1])
    ∧ get_word_frequency_tier exWordYoubi exTierMap "average"
        = some (ceilDiv (4 + List.sum [1]) (List.length [1] + 1))
    ∧ get_word_frequency_tier exWordYoubi exTierMap "first" = some 4 :=
  ⟨by decide,
    ((frequency_tier_strategies exWordYoubi exTierMap 4 [1] (by decide)).1).1,
    (((frequency_tier_strategies exWordYoubi exTierMap 4 [1] (by decide)).2).1).1,
    ((frequency_tier_strategies exWordYoubi exTierMap 4 [1] (by decide)).2).2⟩

/-- Claim C6: a word record with no kanji-bearing forms yields the kana-only
sentinels (`"kana_only"` for levels, `none` for tiers) regardless of the
lookup contents and strategy; a word record none of whose kanji-form
characters is both a CJK Unified Ideograph (U+4E00–U+9FFF) and present in
the lookup yields the non-match sentinels (`"non_jlpt"` / `none`).  Both
classifiers are total Lean functions, so neither case can raise. -/
theorem composite_classifier_sentinels (w : Word) (mL : List (Char × String))
    (mT : List (Char × Nat)) (s : String) :
    (w.kanji = [] →
      get_word_jlpt_level w mL = "kana_only"
        ∧ get_word_frequency_tier w mT s = none)
    ∧ ((∀ k ∈ w.kanji, ∀ c ∈ k.text.toList,
          isCJK c = false ∨ lookupCharMap mL c = none) →
        w.kanji ≠ [] → get_word_jlpt_level w mL = "non_jlpt")
    ∧ ((∀ k ∈ w.kanji, ∀ c ∈ k.text.toList,
          isCJK c = false ∨ lookupCharMap mT c = none) →
        w.kanji ≠ [] → get_word_frequency_tier w mT s = none) := by
  refine ⟨?_, ?_, ?_⟩
  · intro hk
    have hke : w.kanji.isEmpty = true := by rw [hk]; rfl
    constructor
    · unfold get_word_jlpt_level
      rw [if_pos hke]
    · unfold get_word_frequency_tier
      rw [if_pos hke]
  · intro hall hk
    exact get_word_jlpt_level_nil w mL (kanjiEmpty_of_ne_nil hk)
      (scanFound_eq_nil w.kanji mL hall)
  · intro hall hk
    exact get_word_frequency_tier_nil w mT s (kanjiEmpty_of_ne_nil hk)
      (scanFound_eq_nil w.kanji mT hall)

/-- Witness for C6: the kana-only record です (no kanji forms) and the
record 水 whose single kanji character is absent from both lookups. -/
theorem composite_classifier_sentinels_witness :
    (get_word_jlpt_level exWordKana exLevelMap = "kana_only"
      ∧ get_word_frequency_tier exWordKana exTierMap "conservative" = none)
    ∧ get_word_jlpt_level exWordNoMatch exLevelMap = "non_jlpt"
    ∧ get_word_frequency_tier exWordNoMatch exTierMap "conservative" = none :=
  ⟨(composite_classifier_sentinels exWordKana exLevelMap exTierMap "conservative").1 rfl,
    (composite_classifier_sentinels exWordNoMatch exLevelMap exTierMap
      "conservative").2.1 (by decide) (by decide),
    (composite_classifier_sentinels exWordNoMatch exLevelMap exTierMap
      "conservative").2.2 (by decide) (by decide)⟩

/-- Claim C10: any strategy string other than "conservative", "average" and
"first" makes `get_word_frequency_tier` return exactly what the
"conservative" (max) strategy returns — a silent fallback, never an
error. -/
theorem frequency_tier_unknown_strategy (w : Word) (m : List (Char × Nat))
    (s : String) (h1 : s ≠ "conservative") (h2 : s ≠ "average") (h3 : s ≠ "first") :
    get_word_frequency_tier w m s = get_word_frequency_tier w m "conservative" := by
  by_cases hk : w.kanji.isEmpty = true
  · unfold get_word_frequency_tier
    rw [if_pos hk, if_pos hk]
  · have hkf : w.kanji.isEmpty = false := by
      revert hk
      cases w.kanji.isEmpty <;> simp
    cases htf : tiersFound w m with
    | nil =>
      rw [get_word_frequency_tier_nil w m s hkf htf,
        get_word_frequency_tier_nil w m "conservative" hkf htf]
    | cons t ts =>
      rw [get_word_frequency_tier_cons w m s t ts hkf htf,
        get_word_frequency_tier_cons w m "conservative" t ts hkf htf,
        if_neg h1, if_neg h2, if_neg h3, if_pos rfl]

/-- Witness for C10: "max" is not a recognized strategy string and falls
back to the conservative result on the 曜日 example. -/
theorem frequency_tier_unknown_strategy_witness :
    get_word_frequency_tier exWordYoubi exTierMap "max"
      = get_word_frequency_tier exWordYoubi exTierMap "conservative" :=
  frequency_tier_unknown_strategy exWordYoubi exTierMap "max"
    (by decide) (by decide) (by decide)

/-- Claim C2 counterexample: the claim says a legacy-level-2 record with
grade present and ≤ 6 maps to Level3 (N3) for every integer grade, but a
record whose grade is the integer 0 (present and ≤ 6) maps to N2, because
Python `if grade and grade <= 6` treats 0 as falsy. -/
theorem legacy_level2_grade_zero_counterexample :
    ¬ ∀ (c : CharRec), c.literal ≠ "" → c.misc.jlptLevel = some 2 →
        ((∃ g, c.misc.grade = some g ∧ g ≤ 6) → charJlptLabel c = some "N3")
        ∧ ((c.misc.grade = none ∨ ∃ g, c.misc.grade = some g ∧ 6 < g) →
            charJlptLabel c = some "N2") := by
  intro hclaim
  have h := (hclaim exCharGrade0 (by decide) rfl).1 ⟨0, rfl, by decide⟩
  exact absurd h (by decide)

/-- Claim C2 amended: for a legacy-level-2 character record, the mapper
returns N3 exactly when the grade is present, nonzero and ≤ 6, and N2 in
every other case (grade absent, zero, or > 6); in particular the original
claim holds on grade ∈ {absent, 1..20}. -/
theorem legacy_level2_split_amended (c : CharRec) (hl : c.literal ≠ "")
    (h2 : c.misc.jlptLevel = some 2) :
    (charJlptLabel c = some "N3" ↔ ∃ g, c.misc.grade = some g ∧ g ≠ 0 ∧ g ≤ 6)
    ∧ (charJlptLabel c = some "N3" ∨ charJlptLabel c = some "N2") := by
  have hred : charJlptLabel c
      = (if gradeTruthyLE6 c.misc.grade then some "N3" else some "N2") := by
    unfold charJlptLabel
    rw [if_neg hl]
    simp only [h2]
    rw [if_pos trivial]
  rw [hred]
  cases hg : c.misc.grade with
  | none => simp [gradeTruthyLE6]
  | some g =>
    by_cases hgz : g = 0
    · subst hgz
      simp [gradeTruthyLE6]
    · by_cases hgle : g ≤ 6
      · simp [gradeTruthyLE6, hgz, hgle]
      · simp [gradeTruthyLE6, hgz, hgle]

/-- Witness for the amended C2: grade 3 (present, nonzero, ≤ 6) yields N3,
and the grade-0 record still lands in {N3, N2}. -/
theorem legacy_level2_split_amended_witness :
    charJlptLabel exCharGrade3 = some "N3"
    ∧ (charJlptLabel exCharGrade0 = some "N3"
        ∨ charJlptLabel exCharGrade0 = some "N2") :=
  ⟨(legacy_level2_split_amended exCharGrade3 (by decide) rfl).1.mpr
      ⟨3, rfl, by decide, by decide⟩,
    (legacy_level2_split_amended exCharGrade0 (by decide) rfl).2⟩

/-- Claim C9: the legacy→modern level mapping implemented inline in
`create_kanji_decks.main` and the one in `build_kanji_jlpt_map` agree: for
every character record carrying a literal and a legacy level in {1,2,3,4},
the bucket `main` appends the processed record to bears exactly the label
`build_kanji_jlpt_map` assigns to the literal (and a bucket is always
chosen). -/
theorem kanji_bucket_matches_jlpt_map (c : CharRec) (hl : c.literal ≠ "")
    (l : Int) (hj : c.misc.jlptLevel = some l)
    (hrange : l = 1 ∨ l = 2 ∨ l = 3 ∨ l = 4) :
    kanjiBucket c = charJlptLabel c ∧ (kanjiBucket c).isSome := by
  have hpc : process_character c = some
      { kanji := c.literal
        jlpt_level := l
        grade := c.misc.grade
        frequency := c.misc.frequency
        stroke_count := c.misc.strokeCounts.head? } := by
    unfold process_character
    rw [if_neg hl]
    simp only [hj]
  unfold kanjiBucket charJlptLabel
  rw [if_neg hl]
  simp only [hpc, hj]
  rcases hrange with rfl | rfl | rfl | rfl
  · constructor <;> rfl
  · constructor
    · rfl
    · show (if gradeTruthyLE6 c.misc.grade then some "N3" else some "N2").isSome
      cases gradeTruthyLE6 c.misc.grade <;> rfl
  · constructor <;> rfl
  · constructor <;> rfl

/-- Witness for C9: a legacy-level-2, grade-3 record gets bucket N3 from
both implementations. -/
theorem kanji_bucket_matches_jlpt_map_witness :
    kanjiBucket exCharGrade3 = charJlptLabel exCharGrade3
    ∧ (kanjiBucket exCharGrade3).isSome :=
  kanji_bucket_matches_jlpt_map exCharGrade3 (by decide) 2 rfl (by decide)

set_option maxRecDepth 8000 in
/-- Claim C3: the tier calculator returns the empty mapping on the empty
mapping; at N = 4 the sorted indices 1, 2 and 3 land exactly on the 25, 50
and 75 percentiles, fail the strict `<`, and are included at the low end of
tiers 2, 3 and 4; and with 100 distinct keys carrying ranks 1..100, the key
at sorted index i gets tier i/25 + 1, i.e. indices 0–24 ↦ tier 1,
25–49 ↦ 2, 50–74 ↦ 3, 75–99 ↦ 4. -/
theorem frequency_tier_percentile_assignment :
    calculate_frequency_tiers ([] : List (Nat × Nat)) = []
    ∧ calculate_frequency_tiers [((10 : Nat), 1), (11, 2), (12, 3), (13, 4)]
        = [(10, 1), (11, 2), (12, 3), (13, 4)]
    ∧ calculate_frequency_tiers ((List.range 100).map (fun i => (i, i + 1)))
        = (List.range 100).map (fun i => (i, i / 25 + 1)) :=
  ⟨rfl, by decide, by decide⟩

/-- Claim C4 counterexample: its monotonicity clause
(`rank(k1) ≤ rank(k2) → tier(k1) ≤ tier(k2)`) fails on tied ranks: with two
keys both of rank 1, sorted indices 0 and 1 of N = 2 get tiers 1 and 3, so
the second key has equal (hence ≤) rank but a strictly larger tier. -/
theorem frequency_tiers_nonstrict_monotone_counterexample :
    ¬ ∀ (m : List (Nat × Nat)), (m.map Prod.fst).Nodup →
        ∀ k1 r1 k2 r2 t1 t2, (k1, r1) ∈ m → (k2, r2) ∈ m →
          (k1, t1) ∈ calculate_frequency_tiers m →
          (k2, t2) ∈ calculate_frequency_tiers m →
          r1 ≤ r2 → t1 ≤ t2 := by
  intro hclaim
  have h := hclaim [(0, 1), (1, 1)] (by decide) 1 1 0 1 3 1
    (by decide) (by decide) (by decide) (by decide) (by decide)
  exact absurd h (by decide)

/-- Claim C4 amended: the tier calculator's output keys are a permutation of
the input keys and every assigned tier lies in 1..4; with at least 4 keys
every one of the 4 tiers is inhabited (fewer tiers can occur only when
N < 4); and tier assignment is monotone with respect to *strictly* smaller
rank.  The only correction to the claim as stated: for keys with *equal*
ranks the non-strict form `rank(k1) ≤ rank(k2) → tier(k1) ≤ tier(k2)` fails
when tied keys straddle a quartile boundary (see the counterexample). -/
theorem frequency_tiers_partition_strict_monotone {α : Type} (m : List (α × Nat)) :
    ((calculate_frequency_tiers m).map Prod.fst).Perm (m.map Prod.fst)
    ∧ (∀ q ∈ calculate_frequency_tiers m, 1 ≤ q.2 ∧ q.2 ≤ 4)
    ∧ (4 ≤ m.length → ∀ t, 1 ≤ t → t ≤ 4 →
        ∃ k, (k, t) ∈ calculate_frequency_tiers m)
    ∧ ((m.map Prod.fst).Nodup →
        ∀ k1 r1 k2 r2 t1 t2, (k1, r1) ∈ m → (k2, r2) ∈ m →
          (k1, t1) ∈ calculate_frequency_tiers m →
          (k2, t2) ∈ calculate_frequency_tiers m →
          r1 < r2 → t1 ≤ t2) := by
  cases m with
  | nil =>
    refine ⟨List.Perm.refl _, ?_, ?_, ?_⟩
    · intro q hq
      cases hq
    · intro h4
      simp at h4
    · intro _ k1 r1 k2 r2 t1 t2 hm1
      cases hm1
  | cons p0 rest =>
    have hcalc := calculate_frequency_tiers_cons p0 rest
    have hperm : (List.insertionSort rankLE (p0 :: rest)).Perm (p0 :: rest) :=
      List.perm_insertionSort rankLE _
    have hsorted : List.Sorted rankLE (List.insertionSort rankLE (p0 :: rest)) :=
      List.sorted_insertionSort rankLE _
    have hlen : (List.insertionSort rankLE (p0 :: rest)).length = (p0 :: rest).length :=
      hperm.length_eq
    refine ⟨?_, ?_, ?_, ?_⟩
    · rw [hcalc, assignTiers_map_fst]
      exact hperm.map Prod.fst
    · intro q hq
      rw [hcalc] at hq
      obtain ⟨j, hj, hqe⟩ := (mem_assignTiers _ _ _ _).mp hq
      rw [hqe]
      exact tierOfIndex_bounds _ _
    · intro hN t h1 h4
      have hNS : 4 ≤ (List.insertionSort rankLE (p0 :: rest)).length := by
        rw [hlen]
        exact hN
      interval_cases t
      · refine ⟨((List.insertionSort rankLE (p0 :: rest)).get ⟨0, by omega⟩).1, ?_⟩
        rw [hcalc]
        refine (mem_assignTiers _ _ _ _).mpr ⟨0, by omega, ?_⟩
        have ht : tierOfIndex (0 + 0)
            (List.insertionSort rankLE (p0 :: rest)).length = 1 := by
          unfold tierOfIndex
          split_ifs <;> omega
        rw [ht]
      · refine ⟨((List.insertionSort rankLE (p0 :: rest)).get
          ⟨((List.insertionSort rankLE (p0 :: rest)).length + 3) / 4, by omega⟩).1, ?_⟩
        rw [hcalc]
        refine (mem_assignTiers _ _ _ _).mpr
          ⟨((List.insertionSort rankLE (p0 :: rest)).length + 3) / 4, by omega, ?_⟩
        have ht : tierOfIndex
            (0 + ((List.insertionSort rankLE (p0 :: rest)).length + 3) / 4)
            (List.insertionSort rankLE (p0 :: rest)).length = 2 := by
          unfold tierOfIndex
          split_ifs <;> omega
        rw [ht]
      · refine ⟨((List.insertionSort rankLE (p0 :: rest)).get
          ⟨((List.insertionSort rankLE (p0 :: rest)).length + 1) / 2, by omega⟩).1, ?_⟩
        rw [hcalc]
        refine (mem_assignTiers _ _ _ _).mpr
          ⟨((List.insertionSort rankLE (p0 :: rest)).length + 1) / 2, by omega, ?_⟩
        have ht : tierOfIndex
            (0 + ((List.insertionSort rankLE (p0 :: rest)).length + 1) / 2)
            (List.insertionSort rankLE (p0 :: rest)).length = 3 := by
          unfold tierOfIndex
          split_ifs <;> omega
        rw [ht]
      · refine ⟨((List.insertionSort rankLE (p0 :: rest)).get
          ⟨(List.insertionSort rankLE (p0 :: rest)).length - 1, by omega⟩).1, ?_⟩
        rw [hcalc]
        refine (mem_assignTiers _ _ _ _).mpr
          ⟨(List.insertionSort rankLE (p0 :: rest)).length - 1, by omega, ?_⟩
        have ht : tierOfIndex
            (0 + ((List.insertionSort rankLE (p0 :: rest)).length - 1))
            (List.insertionSort rankLE (p0 :: rest)).length = 4 := by
          unfold tierOfIndex
          split_ifs <;> omega
        rw [ht]
    · intro hnd k1 r1 k2 r2 t1 t2 hm1 hm2 ho1 ho2 hr
      have hndS : ((List.insertionSort rankLE (p0 :: rest)).map Prod.fst).Nodup :=
        ((hperm.map Prod.fst).nodup_iff).mpr hnd
      have hm1S : (k1, r1) ∈ List.insertionSort rankLE (p0 :: rest) :=
        hperm.mem_iff.mpr hm1
      have hm2S : (k2, r2) ∈ List.insertionSort rankLE (p0 :: rest) :=
        hperm.mem_iff.mpr hm2
      rw [hcalc] at ho1 ho2
      obtain ⟨j1, hj1, he1⟩ := (mem_assignTiers _ _ _ _).mp ho1
      obtain ⟨j2, hj2, he2⟩ := (mem_assignTiers _ _ _ _).mp ho2
      have hk1 : ((List.insertionSort rankLE (p0 :: rest)).get ⟨j1, hj1⟩).1 = k1 :=
        (congrArg Prod.fst he1).symm
      have hk2 : ((List.insertionSort rankLE (p0 :: rest)).get ⟨j2, hj2⟩).1 = k2 :=
        (congrArg Prod.fst he2).symm
      have ht1 : t1 = tierOfIndex (0 + j1)
          (List.insertionSort rankLE (p0 :: rest)).length := congrArg Prod.snd he1
      have ht2 : t2 = tierOfIndex (0 + j2)
          (List.insertionSort rankLE (p0 :: rest)).length := congrArg Prod.snd he2
      have hget1 := get_eq_of_fst_nodup _ hndS k1 r1 hm1S j1 hj1 hk1
      have hget2 := get_eq_of_fst_nodup _ hndS k2 r2 hm2S j2 hj2 hk2
      have hj12 : j1 ≤ j2 := by
        by_contra hcon
        push_neg at hcon
        have hrel := hsorted.rel_get_of_lt
          (show (⟨j2, hj2⟩ : Fin (List.insertionSort rankLE (p0 :: rest)).length)
              < ⟨j1, hj1⟩ from Fin.mk_lt_mk.mpr hcon)
        rw [hget1, hget2] at hrel
        have hle : r2 ≤ r1 := hrel
        omega
      rw [ht1, ht2]
      exact tierOfIndex_mono _ (by omega)

/-- Witness for the amended C4 on the 4-key mapping with ranks 1..4: tier 2
is inhabited, and strict-rank monotonicity applied to the keys of ranks 1
and 4 (tiers 1 and 4) gives 1 ≤ 4. -/
theorem frequency_tiers_partition_strict_monotone_witness :
    (∃ k, (k, 2) ∈ calculate_frequency_tiers [((10 : Nat), 1), (11, 2), (12, 3), (13, 4)])
    ∧ (1 : Nat) ≤ 4 :=
  ⟨(frequency_tiers_partition_strict_monotone
        [((10 : Nat), 1), (11, 2), (12, 3), (13, 4)]).2.2.1
      (by decide) 2 (by decide) (by decide),
    (frequency_tiers_partition_strict_monotone
        [((10 : Nat), 1), (11, 2), (12, 3), (13, 4)]).2.2.2
      (by decide) 10 1 13 4 1 4 (by decide) (by decide) (by decide) (by decide)
      (by decide)⟩

/-- Claim C7: for a word record with at least one form (all form texts
non-empty, as in real JMdict data), the primary form follows the strict
priority order: first common-flagged kanji form, else first kanji form,
else first common-flagged kana form, else first kana form; a record with
one or more forms always gets a truthy primary form, and only a record with
no form at all yields no primary form and is excluded downstream
(`process_word` returns `none` on it). -/
theorem primary_form_strict_priority (w : Word) (tags : List (String × String))
    (ie : Bool)
    (htk : ∀ k ∈ w.kanji, k.text ≠ "") (hta : ∀ ka ∈ w.kana, ka.text ≠ "") :
    (∀ k, w.kanji.find? (fun x => x.common) = some k →
        get_primary_form w = (some k.text, "kanji"))
    ∧ (w.kanji.find? (fun x => x.common) = none →
        ∀ k kr, w.kanji = k :: kr → get_primary_form w = (some k.text, "kanji"))
    ∧ (w.kanji = [] → ∀ ka, w.kana.find? (fun x => x.common) = some ka →
        get_primary_form w = (some ka.text, "kana"))
    ∧ (w.kanji = [] → w.kana.find? (fun x => x.common) = none →
        ∀ ka kr, w.kana = ka :: kr → get_primary_form w = (some ka.text, "kana"))
    ∧ ((w.kanji ≠ [] ∨ w.kana ≠ []) →
        ∃ s, (get_primary_form w).1 = some s ∧ s ≠ "")
    ∧ (w.kanji = [] → w.kana = [] →
        get_primary_form w = (none, "") ∧ process_word w tags ie = none) := by
  have h1 : ∀ k, w.kanji.find? (fun x => x.common) = some k →
      get_primary_form w = (some k.text, "kanji") := by
    intro k hf
    unfold get_primary_form
    simp only [hf]
  have h2 : w.kanji.find? (fun x => x.common) = none →
      ∀ k kr, w.kanji = k :: kr → get_primary_form w = (some k.text, "kanji") := by
    intro hf k kr hk
    unfold get_primary_form
    simp only [hf]
    simp only [hk]
    rw [if_pos (htk k (by rw [hk]; exact List.mem_cons_self _ _))]
  have h3 : w.kanji = [] → ∀ ka, w.kana.find? (fun x => x.common) = some ka →
      get_primary_form w = (some ka.text, "kana") := by
    intro hk ka hf
    unfold get_primary_form kanaPrimaryForm
    simp only [hk, List.find?_nil, hf]
  have h4 : w.kanji = [] → w.kana.find? (fun x => x.common) = none →
      ∀ ka kr, w.kana = ka :: kr → get_primary_form w = (some ka.text, "kana") := by
    intro hk hf ka kr hka
    unfold get_primary_form kanaPrimaryForm
    simp only [hk, List.find?_nil]
    simp only [hf]
    simp only [hka]
    rw [if_pos (hta ka (by rw [hka]; exact List.mem_cons_self _ _))]
  refine ⟨h1, h2, h3, h4, ?_, ?_⟩
  · intro hforms
    cases hkanji : w.kanji with
    | cons k kr =>
      cases hf : w.kanji.find? (fun x => x.common) with
      | some k2 =>
        refine ⟨k2.text, ?_, htk k2 (List.mem_of_find?_eq_some hf)⟩
        rw [h1 k2 hf]
      | none =>
        refine ⟨k.text, ?_, htk k (by rw [hkanji]; exact List.mem_cons_self _ _)⟩
        rw [h2 hf k kr hkanji]
    | nil =>
      have hkana : w.kana ≠ [] := by
        rcases hforms with hx | hx
        · exact absurd hkanji hx
        · exact hx
      cases hkna : w.kana with
      | nil => exact absurd hkna hkana
      | cons ka kar =>
        cases hf : w.kana.find? (fun x => x.common) with
        | some ka2 =>
          refine ⟨ka2.text, ?_, hta ka2 (List.mem_of_find?_eq_some hf)⟩
          rw [h3 hkanji ka2 hf]
        | none =>
          refine ⟨ka.text, ?_, hta ka (by rw [hkna]; exact List.mem_cons_self _ _)⟩
          rw [h4 hkanji hf ka kar hkna]
  · intro hk hka
    have hgpf : get_primary_form w = (none, "") := by
      unfold get_primary_form kanaPrimaryForm
      simp only [hk, hka, List.find?_nil]
    refine ⟨hgpf, ?_⟩
    unfold process_word
    simp only [hgpf]

/-- Witness for C7: 日本 (common kanji form) takes the common-kanji branch,
and the form-less record gets no primary form and is dropped by
`process_word`. -/
theorem primary_form_strict_priority_witness :
    get_primary_form exWordNihon = (some "日本", "kanji")
    ∧ get_primary_form exWordNoForms = (none, "")
    ∧ process_word exWordNoForms [] false = none :=
  ⟨(primary_form_strict_priority exWordNihon [] false (by decide) (by decide)).1
      ⟨"日本", true⟩ (by decide),
    ((primary_form_strict_priority exWordNoForms [] false (by decide)
        (by decide)).2.2.2.2.2 rfl rfl).1,
    ((primary_form_strict_priority exWordNoForms [] false (by decide)
        (by decide)).2.2.2.2.2 rfl rfl).2⟩

/-- Claim C8: for the classify-and-append bucketer run on any stream of
(record, classification) pairs — and every prefix of the stream is itself
such a run, so the invariant holds at every step of the loop — every record
retrieved from bucket B was classified B; a record (with distinct record
identities) appears in at most one bucket; a record is in some bucket iff it
is a non-skipped input, which for the vocabulary loop means exactly the
words `process_word` accepts and the `--common-only` filter keeps, bucketed
under their `get_word_jlpt_level` classification. -/
theorem bucketer_invariants {ρ : Type} (pairs : List (ρ × String)) :
    (∀ b r, r ∈ runBuckets pairs b → (r, b) ∈ pairs)
    ∧ ((pairs.map Prod.fst).Nodup →
        ∀ r b b2, r ∈ runBuckets pairs b → r ∈ runBuckets pairs b2 → b = b2)
    ∧ (∀ r, (∃ b, r ∈ runBuckets pairs b) ↔ ∃ c, (r, c) ∈ pairs)
    ∧ (∀ (words : List Word) (tags : List (String × String))
        (mL : List (Char × String)) (co ie : Bool) (r : ProcessedWord) (b : String),
        r ∈ runBuckets (vocabPairs words tags mL co ie) b ↔
          ∃ w ∈ words, process_word w tags ie = some r
            ∧ (co && !r.is_common) = false ∧ get_word_jlpt_level w mL = b) := by
  refine ⟨?_, ?_, ?_, ?_⟩
  · intro b r h
    exact (mem_runBuckets pairs b r).mp h
  · intro hnd r b b2 hb hb2
    exact fst_nodup_classification_unique pairs hnd r b b2
      ((mem_runBuckets pairs b r).mp hb) ((mem_runBuckets pairs b2 r).mp hb2)
  · intro r
    constructor
    · rintro ⟨b, hb⟩
      exact ⟨b, (mem_runBuckets pairs b r).mp hb⟩
    · rintro ⟨c, hc⟩
      exact ⟨c, (mem_runBuckets pairs c r).mpr hc⟩
  · intro words tags mL co ie r b
    rw [mem_runBuckets]
    exact mem_vocabPairs words tags mL co ie r b

/-- Witness for C8: a two-record stream; retrieving "a" from bucket N5
recovers its classification, the distinct-records hypothesis gives bucket
uniqueness, and "a" lies in the union. -/
theorem bucketer_invariants_witness :
    (("a", "N5") ∈ [("a", "N5"), ("b", "N4")])
    ∧ "N5" = "N5"
    ∧ ∃ c, ("a", c) ∈ [("a", "N5"), ("b", "N4")] :=
  ⟨(bucketer_invariants [("a", "N5"), ("b", "N4")]).1 "N5" "a" (by decide),
    (bucketer_invariants [("a", "N5"), ("b", "N4")]).2.1 (by decide) "a" "N5" "N5"
      (by decide) (by decide),
    ((bucketer_invariants [("a", "N5"), ("b", "N4")]).2.2.1 "a").mp
      ⟨"N5", by decide⟩⟩
